import Mathlib

/-!
# cdrdao, `trackdb/CdTextItem.cc`: a shallow embedding

One CD-TEXT item (`class CdTextItem`): its four constructors, `print`,
`operator==`, and the pack-type lookup functions `packType2String`,
`int2PackType`, `isBinaryPack`.

Modelling conventions.

* A byte (`unsigned char`, or a `char` seen as its unsigned value) is a `Fin 256`.
* A C pointer to bytes is `Ptr`: `none` is `NULL`, `some m` is a valid pointer and
  `m` lists the bytes that may be read through it (for a heap buffer obtained from
  `new unsigned char[n]` these are exactly its `n` bytes).
* A C function whose run can abort is a function into `Except Fault`:
  `Fault.assertion` is a failed `assert`, `Fault.undefined` a read through `NULL` or
  past the end of the readable bytes.
* `int` and `long` values are `Int`; no arithmetic of this file can overflow on a
  buffer that fits in memory.
* The output stream is the `String` of the characters written so far, one `Char`
  per byte written.
-/

namespace CdText

/-! ## Types declared in `CdTextItem.h` -/

/-- Modelled from the spec: the enumeration `PackType` of `CdTextItem.h` (the header
is not part of the sources at hand); the sixteen enumerators are the ones named by
the `case` labels of `packType2String`, in the order of spec §3. -/
inductive PackType
  | TITLE | PERFORMER | SONGWRITER | COMPOSER | ARRANGER | MESSAGE | DISK_ID | GENRE
  | TOC_INFO1 | TOC_INFO2 | RES1 | RES2 | RES3 | CLOSED | UPCEAN_ISRC | SIZE_INFO
  deriving DecidableEq, Repr

/-- Modelled from the spec: the numeric value of each `PackType` enumerator as
declared in `CdTextItem.h` (spec §3: "Title=0x80 … SizeInfo=0x8F, contiguous"). -/
def PackType.code : PackType → Int
  | .TITLE => 0x80
  | .PERFORMER => 0x81
  | .SONGWRITER => 0x82
  | .COMPOSER => 0x83
  | .ARRANGER => 0x84
  | .MESSAGE => 0x85
  | .DISK_ID => 0x86
  | .GENRE => 0x87
  | .TOC_INFO1 => 0x88
  | .TOC_INFO2 => 0x89
  | .RES1 => 0x8a
  | .RES2 => 0x8b
  | .RES3 => 0x8c
  | .CLOSED => 0x8d
  | .UPCEAN_ISRC => 0x8e
  | .SIZE_INFO => 0x8f

/-- Modelled from the spec: the enumeration `DataType` of `CdTextItem.h`
(spec §3, EncodingKind = {Text, Binary}); `SBCC` is the text encoding. -/
inductive DataType
  | SBCC | BINARY
  deriving DecidableEq, Repr

/-- One byte of memory. -/
abbrev Byte := Fin 256

/-- A pointer to bytes: `none` is `NULL`, `some m` the bytes readable through it. -/
abbrev Ptr := Option (List Byte)

/-- Why a run aborts. -/
inductive Fault
  | assertion
  | undefined
  deriving DecidableEq, Repr

/-- The data members of `class CdTextItem`. `next_` is a non-owning pointer to
another item; only its being `NULL` or not matters here, so it is an address. -/
structure CdTextItem where
  dataType_ : DataType
  packType_ : PackType
  blockNr_ : Int
  trackNr_ : Int
  data_ : Ptr
  dataLen_ : Int
  next_ : Option Nat
  deriving DecidableEq, Repr

/-- Modelled from the spec: the inline member `isTrackPack()` of `CdTextItem.h`
(spec §4.4: "`is_track_item` true, i.e. `track_number > 0`"); an `int` truth value. -/
def CdTextItem.isTrackPack (x : CdTextItem) : Int :=
  if x.trackNr_ > 0 then 1 else 0

/-! ## Pack-type lookup functions -/

/-- `CdTextItem::packType2String(int isTrack, PackType packType)`. The `switch` has a
`case` for each of the sixteen enumerators, so the initial value "UNKNOWN" of `ret`
is overwritten on every path through an enumerator. -/
def packType2String (isTrack : Int) (packType : PackType) : String :=
  match packType with
  | .TITLE => "TITLE"
  | .PERFORMER => "PERFORMER"
  | .SONGWRITER => "SONGWRITER"
  | .COMPOSER => "COMPOSER"
  | .ARRANGER => "ARRANGER"
  | .MESSAGE => "MESSAGE"
  | .DISK_ID => "DISC_ID"
  | .GENRE => "GENRE"
  | .TOC_INFO1 => "TOC_INFO1"
  | .TOC_INFO2 => "TOC_INFO2"
  | .RES1 => "RESERVED1"
  | .RES2 => "RESERVED2"
  | .RES3 => "RESERVED3"
  | .CLOSED => "CLOSED"
  | .UPCEAN_ISRC => if isTrack ≠ 0 then "ISRC" else "UPC_EAN"
  | .SIZE_INFO => "SIZE_INFO"

/-- `CdTextItem::int2PackType(int i)`: `t` starts as `TITLE` and the `switch`
overwrites it for the sixteen listed codes. -/
def int2PackType (i : Int) : PackType :=
  if i = 0x80 then .TITLE
  else if i = 0x81 then .PERFORMER
  else if i = 0x82 then .SONGWRITER
  else if i = 0x83 then .COMPOSER
  else if i = 0x84 then .ARRANGER
  else if i = 0x85 then .MESSAGE
  else if i = 0x86 then .DISK_ID
  else if i = 0x87 then .GENRE
  else if i = 0x88 then .TOC_INFO1
  else if i = 0x89 then .TOC_INFO2
  else if i = 0x8a then .RES1
  else if i = 0x8b then .RES2
  else if i = 0x8c then .RES3
  else if i = 0x8d then .CLOSED
  else if i = 0x8e then .UPCEAN_ISRC
  else if i = 0x8f then .SIZE_INFO
  else .TITLE

/-- `CdTextItem::isBinaryPack(PackType type)`. -/
def isBinaryPack (type : PackType) : Int :=
  match type with
  | .TOC_INFO1 => 1
  | .TOC_INFO2 => 1
  | .SIZE_INFO => 1
  | .GENRE => 1
  | _ => 0

instance instDecidableEqExcept {ε α : Type} [DecidableEq ε] [DecidableEq α] :
    DecidableEq (Except ε α)
  | .ok a, .ok b =>
    if h : a = b then isTrue (congrArg Except.ok h)
    else isFalse (fun h2 => h (Except.ok.inj h2))
  | .error a, .error b =>
    if h : a = b then isTrue (congrArg Except.error h)
    else isFalse (fun h2 => h (Except.error.inj h2))
  | .ok _, .error _ => isFalse (fun h => Except.noConfusion h)
  | .error _, .ok _ => isFalse (fun h => Except.noConfusion h)

/-! ## The C library functions used -/

/-- Bytes before the first zero byte, if there is one. -/
def strlenAux : List Byte → Option Nat
  | [] => none
  | c :: cs => if c = 0 then some 0 else (strlenAux cs).map (· + 1)

/-- `strlen(s)`: the number of bytes before the terminating zero byte; undefined on
`NULL` and when no zero byte is readable. -/
def strlen (s : Ptr) : Except Fault Nat :=
  match s with
  | none => .error .undefined
  | some m =>
    match strlenAux m with
    | none => .error .undefined
    | some n => .ok n

/-- The `n` bytes read through `src` by `memcpy(dst, src, n)` (and stored at `dst`);
undefined on `NULL` and when fewer than `n` bytes are readable. -/
def memcpy (src : Ptr) (n : Nat) : Except Fault (List Byte) :=
  match src with
  | none => .error .undefined
  | some m => if n ≤ m.length then .ok (m.take n) else .error .undefined

/-- The bytes stored by `strcpy(dst, src)`: those of the string and its terminator. -/
def strcpy (src : Ptr) : Except Fault (List Byte) :=
  match strlen src with
  | .error e => .error e
  | .ok n => memcpy src (n + 1)

/-- Lexicographic comparison of two byte sequences of the same length. -/
def memcmpBytes : List Byte → List Byte → Int
  | x :: xs, y :: ys => if x = y then memcmpBytes xs ys else (x.val : Int) - (y.val : Int)
  | _, _ => 0

/-- `memcmp(s1, s2, n)`. With `n = 0` nothing is read and the result is 0 (this is
what `operator==` relies on for two empty payloads, whose pointers are `NULL`);
otherwise `n` bytes must be readable through both pointers. -/
def memcmp (s1 s2 : Ptr) (n : Nat) : Except Fault Int :=
  if n = 0 then .ok 0
  else
    match memcpy s1 n, memcpy s2 n with
    | .ok a, .ok b => .ok (memcmpBytes a b)
    | _, _ => .error .undefined

/-- The value of a `long` converted to `size_t` (64 bits): a negative value wraps
around. -/
def toSizeT (n : Int) : Nat :=
  if n ≥ 0 then n.toNat else (n + 2 ^ 64).toNat

/-- `isprint(c)` in the "C" locale. -/
def isprint (c : Nat) : Bool :=
  0x20 ≤ c && c ≤ 0x7e

/-- The conversion `%03o` of `sprintf`: octal digits, zero-padded to width 3. -/
def fmt03o (v : Nat) : String :=
  let ds := Nat.toDigits 8 v
  String.mk (List.replicate (3 - ds.length) (Char.ofNat 48) ++ ds)

/-- The conversion `%2d` of `sprintf` on a non-negative value: decimal digits,
right-justified with spaces to width 2. -/
def fmt2d (v : Nat) : String :=
  let ds := Nat.toDigits 10 v
  String.mk (List.replicate (2 - ds.length) (Char.ofNat 32) ++ ds)

/-- The element `p[i]`; undefined on `NULL` and outside the readable bytes. -/
def readAt (p : Ptr) (i : Nat) : Except Fault Byte :=
  match p with
  | none => .error .undefined
  | some m =>
    match m.get? i with
    | none => .error .undefined
    | some c => .ok c

/-! ## Constructors -/

/-- `CdTextItem::CdTextItem(PackType packType, int blockNr, const char *data)`. -/
def CdTextItem.ofText (packType : PackType) (blockNr : Int) (data : Ptr) :
    Except Fault CdTextItem :=
  if ¬ (blockNr ≥ 0 ∧ blockNr ≤ 7) then .error .assertion
  else
    match strlen data with
    | .error e => .error e
    | .ok n =>
      let dataLen_ : Int := (n : Int) + 1
      match strcpy data with
      | .error e => .error e
      | .ok buf =>
        .ok { next_ := none, dataType_ := .SBCC, packType_ := packType,
              blockNr_ := blockNr, trackNr_ := 0, dataLen_ := dataLen_,
              data_ := some buf }

/-- `CdTextItem::CdTextItem(PackType packType, int blockNr, const unsigned char *data,
long len)`. -/
def CdTextItem.ofBinary (packType : PackType) (blockNr : Int) (data : Ptr) (len : Int) :
    Except Fault CdTextItem :=
  if ¬ (blockNr ≥ 0 ∧ blockNr ≤ 7) then .error .assertion
  else if len > 0 then
    match memcpy data len.toNat with
    | .error e => .error e
    | .ok buf =>
      .ok { next_ := none, dataType_ := .BINARY, packType_ := packType,
            blockNr_ := blockNr, trackNr_ := 0, dataLen_ := len, data_ := some buf }
  else
    .ok { next_ := none, dataType_ := .BINARY, packType_ := packType,
          blockNr_ := blockNr, trackNr_ := 0, dataLen_ := len, data_ := none }

/-- `CdTextItem::CdTextItem(int blockNr, unsigned char genreCode1,
unsigned char genreCode2, const char *description)`. The buffer of `dataLen_` bytes
receives `genreCode1`, `genreCode2` and then, when there is a description, the
`dataLen_ - 2` bytes copied from it. -/
def CdTextItem.ofGenre (blockNr : Int) (genreCode1 genreCode2 : Byte)
    (description : Ptr) : Except Fault CdTextItem :=
  if ¬ (blockNr ≥ 0 ∧ blockNr ≤ 7) then .error .assertion
  else
    match description with
    | none =>
      .ok { next_ := none, dataType_ := .BINARY, packType_ := .GENRE,
            blockNr_ := blockNr, trackNr_ := 0, dataLen_ := 2,
            data_ := some [genreCode1, genreCode2] }
    | some _ =>
      match strlen description with
      | .error e => .error e
      | .ok n =>
        let dataLen_ : Int := 2 + ((n : Int) + 1)
        match memcpy description (dataLen_ - 2).toNat with
        | .error e => .error e
        | .ok copied =>
          .ok { next_ := none, dataType_ := .BINARY, packType_ := .GENRE,
                blockNr_ := blockNr, trackNr_ := 0, dataLen_ := dataLen_,
                data_ := some ([genreCode1, genreCode2] ++ copied) }

/-- `CdTextItem::CdTextItem(const CdTextItem &obj)`. -/
def CdTextItem.copy (obj : CdTextItem) : Except Fault CdTextItem :=
  if obj.dataLen_ > 0 then
    match memcpy obj.data_ obj.dataLen_.toNat with
    | .error e => .error e
    | .ok buf =>
      .ok { next_ := none, dataType_ := obj.dataType_, packType_ := obj.packType_,
            blockNr_ := obj.blockNr_, trackNr_ := obj.trackNr_,
            dataLen_ := obj.dataLen_, data_ := some buf }
  else
    .ok { next_ := none, dataType_ := obj.dataType_, packType_ := obj.packType_,
          blockNr_ := obj.blockNr_, trackNr_ := obj.trackNr_,
          dataLen_ := obj.dataLen_, data_ := none }

/-! ## Rendering -/

/-- What one turn of the text loop of `print` writes for the byte `c = data_[i]`. -/
def printTextByte (c : Byte) : String :=
  if c = 34 then "\\\""
  else if isprint c.val then String.singleton (Char.ofNat c.val)
  else "\\" ++ fmt03o c.val

/-- The text loop `for (i = 0; i < dataLen_ - 1; i++)` of `print`, from index `i` with
`k` turns left. -/
def printTextLoop (data_ : Ptr) : Nat → Nat → String → Except Fault String
  | _, 0, out => .ok out
  | i, k + 1, out =>
    match readAt data_ i with
    | .error e => .error e
    | .ok c => printTextLoop data_ (i + 1) k (out ++ printTextByte c)

/-- What one turn of the binary loop of `print` writes for the byte `c = data_[i]`. -/
def printBinaryByte (i : Nat) (c : Byte) : String :=
  if i = 0 then fmt2d c.val
  else (if i % 12 = 0 then ",\n               " else ", ") ++ fmt2d c.val

/-- The binary loop `for (i = 0; i < dataLen_; i++)` of `print`, from index `i` with
`k` turns left. -/
def printBinaryLoop (data_ : Ptr) : Nat → Nat → String → Except Fault String
  | _, 0, out => .ok out
  | i, k + 1, out =>
    match readAt data_ i with
    | .error e => .error e
    | .ok c => printBinaryLoop data_ (i + 1) k (out ++ printBinaryByte i c)

/-- `CdTextItem::print(std::ostream &out, PrintParams &params)`: the stream content
after the call, `out` being the content before it (`params` is not used). -/
def CdTextItem.print (x : CdTextItem) (out : String) : Except Fault String :=
  let out := out ++ packType2String x.isTrackPack x.packType_
  if x.dataType_ = .SBCC then
    match printTextLoop x.data_ 0 (x.dataLen_ - 1).toNat (out ++ " \"") with
    | .error e => .error e
    | .ok out => .ok (out ++ "\"")
  else
    match printBinaryLoop x.data_ 0 x.dataLen_.toNat (out ++ " \x7b") with
    | .error e => .error e
    | .ok out => .ok (out ++ "\x7d")

/-! ## Comparison -/

/-- `CdTextItem::operator==(const CdTextItem &obj)`. -/
def CdTextItem.eq (x obj : CdTextItem) : Except Fault Int :=
  if x.packType_ ≠ obj.packType_ ∨ x.blockNr_ ≠ obj.blockNr_ ∨
      x.dataType_ ≠ obj.dataType_ ∨ x.dataLen_ ≠ obj.dataLen_ then .ok 0
  else
    match memcmp x.data_ obj.data_ (toSizeT x.dataLen_) with
    | .error e => .error e
    | .ok r => .ok (if r = 0 then 1 else 0)

/-- `CdTextItem::operator!=(const CdTextItem &obj)`. -/
def CdTextItem.ne (x obj : CdTextItem) : Except Fault Int :=
  match x.eq obj with
  | .error e => .error e
  | .ok r => .ok (if r ≠ 0 then 0 else 1)

/-! ## The data-model invariant -/

/-- The payload part of the data-model invariant (spec §3): `payload_len >= 0`, the
buffer is present iff `payload_len > 0`, and a present buffer has `payload_len`
bytes. -/
def CdTextItem.PayloadOk (x : CdTextItem) : Prop :=
  0 ≤ x.dataLen_ ∧
    match x.data_ with
    | none => x.dataLen_ = 0
    | some m => 0 < x.dataLen_ ∧ (m.length : Int) = x.dataLen_

instance CdTextItem.instDecidablePayloadOk (x : CdTextItem) : Decidable x.PayloadOk :=
  match h : x.data_ with
  | none =>
    if h1 : 0 ≤ x.dataLen_ ∧ x.dataLen_ = 0 then isTrue (by
      unfold CdTextItem.PayloadOk; rw [h]; exact h1)
    else isFalse (by unfold CdTextItem.PayloadOk; rw [h]; exact h1)
  | some m =>
    if h1 : 0 ≤ x.dataLen_ ∧ (0 < x.dataLen_ ∧ (m.length : Int) = x.dataLen_) then
      isTrue (by unfold CdTextItem.PayloadOk; rw [h]; exact h1)
    else isFalse (by unfold CdTextItem.PayloadOk; rw [h]; exact h1)

/-- The items that agree in all that `operator==` looks at (spec §4.2): pack type,
block number, encoding, payload length and payload bytes. -/
def CdTextItem.SameContent (a b : CdTextItem) : Prop :=
  a.packType_ = b.packType_ ∧ a.blockNr_ = b.blockNr_ ∧ a.dataType_ = b.dataType_ ∧
    a.dataLen_ = b.dataLen_ ∧ a.data_ = b.data_

instance CdTextItem.instDecidableSameContent (a b : CdTextItem) :
    Decidable (a.SameContent b) := by
  unfold CdTextItem.SameContent; infer_instance

/-! ## The rendering, in the words of the specification -/

/-- The character of the octal digit `d`. -/
def octalDigit (d : Nat) : Char :=
  Char.ofNat (48 + d)

/-- The escaped form of a byte inside a text literal (spec §4.3): a double quote is
a backslash and a double quote, any other printable byte is itself, any other byte
is a backslash and its three octal digits. -/
def escapedByte (c : Byte) : String :=
  if c.val = 34 then String.mk [Char.ofNat 92, Char.ofNat 34]
  else if isprint c.val then String.mk [Char.ofNat c.val]
  else
    String.mk [Char.ofNat 92, octalDigit (c.val / 64), octalDigit (c.val / 8 % 8),
      octalDigit (c.val % 8)]

/-- The entry of a byte in a binary literal (spec §4.3): its decimal representation,
right-justified with spaces to width 2. -/
def entry (v : Byte) : String :=
  "".pushn (Char.ofNat 32) (2 - (Nat.repr v.val).length) ++ Nat.repr v.val

/-- The separator written before the entry of index `i > 0` (spec §6): a comma, then
a line break and the indentation when `i` is a multiple of 12, one space otherwise. -/
def separator (i : Nat) : String :=
  if i % 12 = 0 then "," ++ "\n" ++ "".pushn (Char.ofNat 32) 15 else ", "

/-- The byte list of a binary literal (spec §6): empty for no byte, otherwise the
entry of the first byte and then, for each further byte, its separator and entry. -/
def byteList : List Byte → String
  | [] => ""
  | b :: bs => entry b ++ String.join ((bs.enumFrom 1).map fun p => separator p.1 ++ entry p.2)

/-- The payload bytes of an item: those of its buffer, none when there is no buffer. -/
def CdTextItem.payload (x : CdTextItem) : List Byte :=
  x.data_.getD []

/-! ## Sample items -/

/-- The disc title "My Disc" of block 0, as the text constructor builds it. -/
def sampleTitle : CdTextItem :=
  { dataType_ := .SBCC, packType_ := .TITLE, blockNr_ := 0, trackNr_ := 0,
    data_ := some [77, 121, 32, 68, 105, 115, 99, 0], dataLen_ := 8, next_ := none }

/-- The same title, attached to track 3 and linked into a list. -/
def sampleTitleTrack3 : CdTextItem :=
  { sampleTitle with trackNr_ := 3, next_ := some 4096 }

/-- The title "My Disk": one payload byte differs from `sampleTitle`. -/
def sampleTitleOther : CdTextItem :=
  { sampleTitle with data_ := some [77, 121, 32, 68, 105, 115, 107, 0] }

/-- A title made of `a`, a double quote, `b` and the control byte 7. -/
def sampleQuoted : CdTextItem :=
  { dataType_ := .SBCC, packType_ := .TITLE, blockNr_ := 0, trackNr_ := 0,
    data_ := some [97, 34, 98, 7, 0], dataLen_ := 5, next_ := none }

/-- A binary item of thirteen bytes of value 9. -/
def sampleNines : CdTextItem :=
  { dataType_ := .BINARY, packType_ := .TOC_INFO1, blockNr_ := 0, trackNr_ := 0,
    data_ := some (List.replicate 13 9), dataLen_ := 13, next_ := none }

/-- A binary item without payload. -/
def sampleEmpty : CdTextItem :=
  { dataType_ := .BINARY, packType_ := .SIZE_INFO, blockNr_ := 0, trackNr_ := 0,
    data_ := none, dataLen_ := 0, next_ := none }

/-! ## The full data-model invariant -/

/-- The data-model invariant of spec §3: the block number lies in 0..7, the payload
invariant holds, and a text item has at least one payload byte, the last of which
(the one of index `dataLen_ - 1`) is the zero terminator. -/
def CdTextItem.Inv (x : CdTextItem) : Prop :=
  (0 ≤ x.blockNr_ ∧ x.blockNr_ ≤ 7) ∧ x.PayloadOk ∧
    (x.dataType_ = .SBCC →
      1 ≤ x.dataLen_ ∧ readAt x.data_ (x.dataLen_ - 1).toNat = .ok 0)

instance CdTextItem.instDecidableInv (x : CdTextItem) : Decidable x.Inv := by
  unfold CdTextItem.Inv; infer_instance

/-! ## The items a program can hold -/

/-- The number of line breaks in a string. -/
def lineBreaks (s : String) : Nat :=
  s.data.count (Char.ofNat 10)

/-- A character is printable ASCII: its code lies in 0x20..0x7e. -/
def printableAscii (ch : Char) : Prop :=
  0x20 ≤ ch.toNat ∧ ch.toNat ≤ 0x7e

instance instDecidablePrintableAscii (ch : Char) : Decidable (printableAscii ch) := by
  unfold printableAscii; infer_instance

/-- The keyword and opening brace that `print` writes before the byte list of a
binary item. -/
def CdTextItem.binaryHead (x : CdTextItem) : String :=
  packType2String (if x.trackNr_ > 0 then 1 else 0) x.packType_ ++ " \x7b"

/-- The title whose four characters are a backslash and the digits 0, 0, 7. -/
def sampleBackslash : CdTextItem :=
  { dataType_ := .SBCC, packType_ := .TITLE, blockNr_ := 0, trackNr_ := 0,
    data_ := some [92, 48, 48, 55, 0], dataLen_ := 5, next_ := none }

/-- The title whose only character is the control byte 7. -/
def sampleBell : CdTextItem :=
  { dataType_ := .SBCC, packType_ := .TITLE, blockNr_ := 0, trackNr_ := 0,
    data_ := some [7, 0], dataLen_ := 2, next_ := none }

/-! ## Lemmas on the library functions -/

theorem strlenAux_string (s rest : List Byte) (hs : ∀ c ∈ s, c ≠ 0) :
    strlenAux (s ++ 0 :: rest) = some s.length := by
  induction s with
  | nil => simp [strlenAux]
  | cons c cs ih =>
    have hc : c ≠ 0 := hs c (List.mem_cons_self _ _)
    have hcs : ∀ d ∈ cs, d ≠ 0 := fun d hd => hs d (List.mem_cons_of_mem _ hd)
    simp [strlenAux, hc, ih hcs]

theorem strlen_string (s rest : List Byte) (hs : ∀ c ∈ s, c ≠ 0) :
    strlen (some (s ++ 0 :: rest)) = .ok s.length := by
  simp [strlen, strlenAux_string s rest hs]

theorem memcpy_string (s rest : List Byte) :
    memcpy (some (s ++ 0 :: rest)) (s.length + 1) = .ok (s ++ [0]) := by
  have h : List.take (s.length + 1) (s ++ 0 :: rest) = s ++ [0] := by
    induction s with
    | nil => simp
    | cons c cs ih => simpa using ih
  simp [memcpy, h]

theorem memcpy_whole (m : List Byte) : memcpy (some m) m.length = .ok m := by
  simp [memcpy]

theorem memcmpBytes_eq_zero_iff (a b : List Byte) (h : a.length = b.length) :
    memcmpBytes a b = 0 ↔ a = b := by
  induction a generalizing b with
  | nil =>
    cases b with
    | nil => simp [memcmpBytes]
    | cons y ys => simp at h
  | cons x xs ih =>
    cases b with
    | nil => simp at h
    | cons y ys =>
      have hl : xs.length = ys.length := by simpa using h
      by_cases hxy : x = y
      · subst hxy
        simp [memcmpBytes, ih ys hl]
      · have hv : (x.val : Int) - (y.val : Int) ≠ 0 := by
          intro h0
          apply hxy
          apply Fin.ext
          omega
        simp [memcmpBytes, hxy, hv]

theorem toSizeT_of_nonneg (n : Int) (h : 0 ≤ n) : toSizeT n = n.toNat := by
  simp [toSizeT, h]

/-- On items that satisfy the payload invariant `operator==` returns, and returns 1
exactly when the two items have the same content. -/
theorem eq_eval (a b : CdTextItem) (ha : a.PayloadOk) (hb : b.PayloadOk) :
    a.eq b = .ok (if a.SameContent b then 1 else 0) := by
  obtain ⟨dta, pta, bna, tna, da, la, na⟩ := a
  obtain ⟨dtb, ptb, bnb, tnb, db, lb, nb⟩ := b
  simp only [CdTextItem.PayloadOk] at ha hb
  simp only [CdTextItem.eq, CdTextItem.SameContent]
  by_cases h4 : pta ≠ ptb ∨ bna ≠ bnb ∨ dta ≠ dtb ∨ la ≠ lb
  · rw [if_pos h4]
    have : ¬ (pta = ptb ∧ bna = bnb ∧ dta = dtb ∧ la = lb ∧ da = db) := by
      rintro ⟨h1, h2, h3, h4', -⟩
      rcases h4 with h | h | h | h
      · exact h h1
      · exact h h2
      · exact h h3
      · exact h h4'
    rw [if_neg this]
  · rw [if_neg h4]
    have h1 : pta = ptb := by by_contra h; exact h4 (Or.inl h)
    have h2 : bna = bnb := by by_contra h; exact h4 (Or.inr (Or.inl h))
    have h3 : dta = dtb := by by_contra h; exact h4 (Or.inr (Or.inr (Or.inl h)))
    have h5 : la = lb := by by_contra h; exact h4 (Or.inr (Or.inr (Or.inr h)))
    subst h1 h2 h3 h5
    rw [toSizeT_of_nonneg la ha.1]
    cases da with
    | none =>
      have hl : la = 0 := ha.2
      subst hl
      cases db with
      | none => simp [memcmp]
      | some mb => exact absurd hb.2.1 (lt_irrefl 0)
    | some ma =>
      obtain ⟨-, hpos, hlen⟩ := ha
      cases db with
      | none => exact absurd hb.2 (ne_of_gt hpos)
      | some mb =>
        obtain ⟨-, -, hlenb⟩ := hb
        have hna : la.toNat = ma.length := by omega
        have hnb : la.toNat = mb.length := by omega
        have hne : ¬ (ma.length = 0) := by omega
        have hab : ma.length = mb.length := by omega
        rw [hna]
        simp only [memcmp, if_neg hne]
        rw [memcpy_whole ma, hab, memcpy_whole mb]
        by_cases hm : ma = mb
        · subst hm
          simp [(memcmpBytes_eq_zero_iff ma ma rfl).2 rfl]
        · have : memcmpBytes ma mb ≠ 0 := fun h0 =>
            hm ((memcmpBytes_eq_zero_iff ma mb hab).1 h0)
          simp [this, hm]

theorem code_int2PackType (i : Int) (h1 : 0x80 ≤ i) (h2 : i ≤ 0x8f) :
    (int2PackType i).code = i := by
  interval_cases i <;> rfl

theorem int2PackType_code (p : PackType) : int2PackType p.code = p := by
  cases p <;> rfl

theorem code_range (p : PackType) : 0x80 ≤ p.code ∧ p.code ≤ 0x8f := by
  cases p <;> decide

/-! ## Equality -/

/-- C1: on items that satisfy the payload invariant, `operator==` returns 1 (true)
if and only if the two items have the same pack type, block number, encoding, payload
length and payload bytes, and 0 (false) otherwise; the track number and the successor
link play no part; an item and the same item with another track number and successor
compare equal; an item and the same item with one payload byte changed compare
unequal. -/
theorem operator_eq_iff (a b : CdTextItem) (ha : a.PayloadOk) (hb : b.PayloadOk) :
    (a.eq b = .ok 1 ↔
      (a.packType_ = b.packType_ ∧ a.blockNr_ = b.blockNr_ ∧ a.dataType_ = b.dataType_ ∧
        a.dataLen_ = b.dataLen_ ∧ a.data_ = b.data_)) ∧
    (a.eq b = .ok 0 ↔
      ¬ (a.packType_ = b.packType_ ∧ a.blockNr_ = b.blockNr_ ∧ a.dataType_ = b.dataType_ ∧
        a.dataLen_ = b.dataLen_ ∧ a.data_ = b.data_)) ∧
    (∀ (t1 t2 : Int) (n1 n2 : Option Nat),
      CdTextItem.eq { a with trackNr_ := t1, next_ := n1 } { b with trackNr_ := t2, next_ := n2 }
        = a.eq b) ∧
    (∀ (t : Int) (n : Option Nat), a.eq { a with trackNr_ := t, next_ := n } = .ok 1) ∧
    (∀ (m : List Byte) (i : Nat) (v : Byte), a.data_ = some m → i < m.length →
      m.get? i ≠ some v → a.eq { a with data_ := some (m.set i v) } = .ok 0) := by
  have hev := eq_eval a b ha hb
  simp only [CdTextItem.SameContent] at hev
  refine ⟨?_, ?_, ?_, ?_, ?_⟩
  · rw [hev]
    constructor
    · intro h
      by_contra hc
      rw [if_neg hc] at h
      exact absurd (Except.ok.inj h) (by decide)
    · intro h
      rw [if_pos h]
  · rw [hev]
    constructor
    · intro h hc
      rw [if_pos hc] at h
      exact absurd (Except.ok.inj h) (by decide)
    · intro h
      rw [if_neg h]
  · intro t1 t2 n1 n2
    rfl
  · intro t n
    have hok : CdTextItem.PayloadOk { a with trackNr_ := t, next_ := n } := ha
    have h := eq_eval a { a with trackNr_ := t, next_ := n } ha hok
    rw [h, if_pos]
    exact ⟨rfl, rfl, rfl, rfl, rfl⟩
  · intro m i v hm hi hv
    have hok : CdTextItem.PayloadOk { a with data_ := some (m.set i v) } := by
      have ha2 := ha
      simp only [CdTextItem.PayloadOk] at ha2 ⊢
      rw [hm] at ha2
      simpa using ha2
    have h := eq_eval a { a with data_ := some (m.set i v) } ha hok
    rw [h, if_neg]
    rintro ⟨-, -, -, -, hd⟩
    rw [hm] at hd
    have hd2 : m = m.set i v := Option.some.inj hd
    apply hv
    rw [hd2, List.get?_eq_getElem?]
    simp [hi]

/-- C1, at sample items: a title and the same title on track 3 compare equal; the
titles "My Disc" and "My Disk" compare unequal. -/
theorem operator_eq_iff_witness :
    sampleTitle.PayloadOk ∧ sampleTitleTrack3.PayloadOk ∧ sampleTitleOther.PayloadOk ∧
      sampleTitle.eq sampleTitleTrack3 = .ok 1 ∧ sampleTitle.eq sampleTitleOther = .ok 0 :=
  ⟨by decide, by decide, by decide,
    (operator_eq_iff sampleTitle sampleTitleTrack3 (by decide) (by decide)).1.2
      (by decide),
    (operator_eq_iff sampleTitle sampleTitleOther (by decide) (by decide)).2.1.2
      (by decide)⟩

/-! ## Constructors -/

/-- C4: for a block number in 0..7 and a string `s` of non-zero bytes followed by its
zero terminator (whatever lies behind it in memory), the text constructor returns the
item with encoding SBCC (text), the given pack type and block number, track number 0,
no successor, payload length `length s + 1` and payload `s` followed by one zero
byte. -/
theorem ofText_spec (packType : PackType) (blockNr : Int) (s rest : List Byte)
    (hb : 0 ≤ blockNr ∧ blockNr ≤ 7) (hs : ∀ c ∈ s, c ≠ 0) :
    CdTextItem.ofText packType blockNr (some (s ++ 0 :: rest)) =
      .ok { dataType_ := .SBCC, packType_ := packType, blockNr_ := blockNr, trackNr_ := 0,
            data_ := some (s ++ [0]), dataLen_ := (s.length : Int) + 1, next_ := none } := by
  have hb2 : ¬ ¬ (blockNr ≥ 0 ∧ blockNr ≤ 7) := not_not.2 hb
  simp only [CdTextItem.ofText, if_neg hb2, strcpy, strlen_string s rest hs,
    memcpy_string s rest]

set_option maxRecDepth 8192 in
/-- C4, at the string "My Disc" of block 0 (with two stray bytes behind its
terminator). -/
theorem ofText_spec_witness :
    CdTextItem.ofText .TITLE 0 (some ([77, 121, 32, 68, 105, 115, 99] ++ 0 :: [9, 9])) =
      .ok { dataType_ := .SBCC, packType_ := .TITLE, blockNr_ := 0, trackNr_ := 0,
            data_ := some ([77, 121, 32, 68, 105, 115, 99] ++ [0]),
            dataLen_ := (([77, 121, 32, 68, 105, 115, 99] : List Byte).length : Int) + 1,
            next_ := none } :=
  ofText_spec .TITLE 0 [77, 121, 32, 68, 105, 115, 99] [9, 9] (by decide) (by decide)

/-- C5: for a block number in 0..7, a readable buffer `buf` and a length `len` with
`0 <= len <= size of buf`, the binary constructor returns the item with encoding
BINARY, the given pack type and block number, track number 0, no successor, payload
length `len`, and as payload no buffer when `len = 0` and otherwise the first `len`
bytes of `buf`. -/
theorem ofBinary_spec (packType : PackType) (blockNr : Int) (buf : List Byte) (len : Int)
    (hb : 0 ≤ blockNr ∧ blockNr ≤ 7) (h0 : 0 ≤ len) (hlen : len ≤ (buf.length : Int)) :
    CdTextItem.ofBinary packType blockNr (some buf) len =
      .ok { dataType_ := .BINARY, packType_ := packType, blockNr_ := blockNr, trackNr_ := 0,
            data_ := if len = 0 then none else some (buf.take len.toNat),
            dataLen_ := len, next_ := none } := by
  have hb2 : ¬ ¬ (blockNr ≥ 0 ∧ blockNr ≤ 7) := not_not.2 hb
  by_cases hz : len = 0
  · subst hz
    simp [CdTextItem.ofBinary, hb]
  · have hpos : len > 0 := by omega
    have hn : len.toNat ≤ buf.length := by omega
    simp only [CdTextItem.ofBinary, if_neg hb2, if_pos hpos, memcpy, if_pos hn, if_neg hz]

/-- C5, at a buffer of four bytes of which three are taken. -/
theorem ofBinary_spec_witness :
    CdTextItem.ofBinary .TOC_INFO1 7 (some [1, 2, 3, 4]) 3 =
      .ok { dataType_ := .BINARY, packType_ := .TOC_INFO1, blockNr_ := 7, trackNr_ := 0,
            data_ := if (3 : Int) = 0 then none else some (([1, 2, 3, 4] : List Byte).take (3 : Int).toNat),
            dataLen_ := 3, next_ := none } :=
  ofBinary_spec .TOC_INFO1 7 [1, 2, 3, 4] 3 (by decide) (by decide) (by decide)

/-- C6: for a block number in 0..7 and genre codes `c1`, `c2`, the genre constructor
returns an item with pack type GENRE, encoding BINARY, track number 0 and no
successor; without a description (`NULL`) its payload length is 2 and its payload
`[c1, c2]`; with a description `d` of `L` non-zero bytes followed by its terminator the
payload length is `2 + L + 1` and the payload is `c1, c2`, the bytes of `d` and one
zero byte. -/
theorem ofGenre_spec (blockNr : Int) (c1 c2 : Byte) (hb : 0 ≤ blockNr ∧ blockNr ≤ 7) :
    CdTextItem.ofGenre blockNr c1 c2 none =
        .ok { dataType_ := .BINARY, packType_ := .GENRE, blockNr_ := blockNr, trackNr_ := 0,
              data_ := some [c1, c2], dataLen_ := 2, next_ := none } ∧
    ∀ d rest : List Byte, (∀ c ∈ d, c ≠ 0) →
      CdTextItem.ofGenre blockNr c1 c2 (some (d ++ 0 :: rest)) =
        .ok { dataType_ := .BINARY, packType_ := .GENRE, blockNr_ := blockNr, trackNr_ := 0,
              data_ := some ([c1, c2] ++ d ++ [0]), dataLen_ := 2 + (d.length : Int) + 1,
              next_ := none } := by
  have hb2 : ¬ ¬ (blockNr ≥ 0 ∧ blockNr ≤ 7) := not_not.2 hb
  constructor
  · simp only [CdTextItem.ofGenre, if_neg hb2]
  · intro d rest hd
    have hn : (2 + ((d.length : Int) + 1) - 2).toNat = d.length + 1 := by omega
    simp only [CdTextItem.ofGenre, if_neg hb2, strlen_string d rest hd, hn,
      memcpy_string d rest]
    simp [add_assoc]

set_option maxRecDepth 8192 in
/-- C6, at block 0 and codes (1, 5): without a description, and with the description
"Pop". -/
theorem ofGenre_spec_witness :
    CdTextItem.ofGenre 0 1 5 none =
        .ok { dataType_ := .BINARY, packType_ := .GENRE, blockNr_ := 0, trackNr_ := 0,
              data_ := some [1, 5], dataLen_ := 2, next_ := none } ∧
    CdTextItem.ofGenre 0 1 5 (some ([80, 111, 112] ++ 0 :: [])) =
        .ok { dataType_ := .BINARY, packType_ := .GENRE, blockNr_ := 0, trackNr_ := 0,
              data_ := some ([1, 5] ++ [80, 111, 112] ++ [0]),
              dataLen_ := 2 + (([80, 111, 112] : List Byte).length : Int) + 1,
              next_ := none } :=
  ⟨(ofGenre_spec 0 1 5 (by decide)).1,
    (ofGenre_spec 0 1 5 (by decide)).2 [80, 111, 112] [] (by decide)⟩

/-- The copy constructor on an item that satisfies the payload invariant. -/
theorem copy_eval (x : CdTextItem) (hx : x.PayloadOk) :
    x.copy = .ok { x with next_ := none } := by
  obtain ⟨dt, pt, bn, tn, d, l, n⟩ := x
  simp only [CdTextItem.PayloadOk] at hx
  cases d with
  | none =>
    have hl : l = 0 := hx.2
    subst hl
    simp [CdTextItem.copy]
  | some m =>
    obtain ⟨-, hpos, hlen⟩ := hx
    have hn : l.toNat = m.length := by omega
    simp only [CdTextItem.copy, if_pos hpos, hn, memcpy_whole m]

/-- C7: for every item `x` that satisfies the payload invariant, whatever its
successor link, the copy constructor returns an item `c` with no successor and with the
encoding, pack type, block number, track number, payload length and payload bytes of
`x`, and both `c == x` and `x == c` return 1 (true). -/
theorem copy_spec (x : CdTextItem) (hx : x.PayloadOk) :
    ∃ c : CdTextItem, x.copy = .ok c ∧ c.next_ = none ∧ c.dataType_ = x.dataType_ ∧
      c.packType_ = x.packType_ ∧ c.blockNr_ = x.blockNr_ ∧ c.trackNr_ = x.trackNr_ ∧
      c.dataLen_ = x.dataLen_ ∧ c.data_ = x.data_ ∧
      c.eq x = .ok 1 ∧ x.eq c = .ok 1 := by
  have hc : CdTextItem.PayloadOk { x with next_ := none } := hx
  refine ⟨{ x with next_ := none }, copy_eval x hx, rfl, rfl, rfl, rfl, rfl, rfl, rfl, ?_, ?_⟩
  · rw [eq_eval _ x hc hx, if_pos]
    exact ⟨rfl, rfl, rfl, rfl, rfl⟩
  · rw [eq_eval x _ hx hc, if_pos]
    exact ⟨rfl, rfl, rfl, rfl, rfl⟩

/-- C7, at a title that is attached to track 3 and linked into a list. -/
theorem copy_spec_witness :
    sampleTitleTrack3.PayloadOk ∧
    ∃ c : CdTextItem, sampleTitleTrack3.copy = .ok c ∧ c.next_ = none ∧
      c.dataType_ = sampleTitleTrack3.dataType_ ∧
      c.packType_ = sampleTitleTrack3.packType_ ∧ c.blockNr_ = sampleTitleTrack3.blockNr_ ∧
      c.trackNr_ = sampleTitleTrack3.trackNr_ ∧
      c.dataLen_ = sampleTitleTrack3.dataLen_ ∧ c.data_ = sampleTitleTrack3.data_ ∧
      c.eq sampleTitleTrack3 = .ok 1 ∧ sampleTitleTrack3.eq c = .ok 1 :=
  ⟨by decide, copy_spec sampleTitleTrack3 (by decide)⟩

/-! ## Pack-type lookup -/

/-- C8: with `code p` the on-disc code of the pack type `p` (0x80 for TITLE up to 0x8f
for SIZE_INFO), every code lies in 0x80..0x8f and `int2PackType (code p) = p`; and
`int2PackType` restricted to 0x80..0x8f is a bijection onto the pack types. -/
theorem int2PackType_roundtrip :
    (∀ p : PackType, 0x80 ≤ p.code ∧ p.code ≤ 0x8f ∧ int2PackType p.code = p) ∧
    Set.BijOn int2PackType (Set.Icc (0x80 : Int) 0x8f) Set.univ := by
  refine ⟨fun p => ⟨(code_range p).1, (code_range p).2, int2PackType_code p⟩, ?_, ?_, ?_⟩
  · intro i _
    exact Set.mem_univ _
  · intro i hi j hj hij
    rw [← code_int2PackType i hi.1 hi.2, ← code_int2PackType j hj.1 hj.2, hij]
  · intro p _
    exact ⟨p.code, code_range p, int2PackType_code p⟩

/-- C9: for every integer `i` outside 0x80..0x8f (negative values and values above
0xff included) `int2PackType i` is TITLE; the function is total. -/
theorem int2PackType_fallback (i : Int) (h : ¬ (0x80 ≤ i ∧ i ≤ 0x8f)) :
    int2PackType i = .TITLE := by
  unfold int2PackType
  iterate 16 rw [if_neg (by omega)]

/-- C9, at the codes -1, 0x7f, 0x90 and 0x180. -/
theorem int2PackType_fallback_witness :
    int2PackType (-1) = .TITLE ∧ int2PackType 0x7f = .TITLE ∧
      int2PackType 0x90 = .TITLE ∧ int2PackType 0x180 = .TITLE :=
  ⟨int2PackType_fallback (-1) (by decide), int2PackType_fallback 0x7f (by decide),
    int2PackType_fallback 0x90 (by decide), int2PackType_fallback 0x180 (by decide)⟩

/-- C10: the keyword of UPCEAN_ISRC is "ISRC" when `isTrack` is true (non-zero) and
"UPC_EAN" when it is false (zero); the keyword of every other pack type is the same
for every `isTrack`, namely TITLE, PERFORMER, SONGWRITER, COMPOSER, ARRANGER, MESSAGE,
DISC_ID, GENRE, TOC_INFO1, TOC_INFO2, RESERVED1, RESERVED2, RESERVED3, CLOSED,
SIZE_INFO. -/
theorem packType2String_keywords :
    (∀ isTrack : Int, isTrack ≠ 0 → packType2String isTrack .UPCEAN_ISRC = "ISRC") ∧
    packType2String 1 .UPCEAN_ISRC = "ISRC" ∧
    packType2String 0 .UPCEAN_ISRC = "UPC_EAN" ∧
    (∀ isTrack : Int,
      packType2String isTrack .TITLE = "TITLE" ∧
      packType2String isTrack .PERFORMER = "PERFORMER" ∧
      packType2String isTrack .SONGWRITER = "SONGWRITER" ∧
      packType2String isTrack .COMPOSER = "COMPOSER" ∧
      packType2String isTrack .ARRANGER = "ARRANGER" ∧
      packType2String isTrack .MESSAGE = "MESSAGE" ∧
      packType2String isTrack .DISK_ID = "DISC_ID" ∧
      packType2String isTrack .GENRE = "GENRE" ∧
      packType2String isTrack .TOC_INFO1 = "TOC_INFO1" ∧
      packType2String isTrack .TOC_INFO2 = "TOC_INFO2" ∧
      packType2String isTrack .RES1 = "RESERVED1" ∧
      packType2String isTrack .RES2 = "RESERVED2" ∧
      packType2String isTrack .RES3 = "RESERVED3" ∧
      packType2String isTrack .CLOSED = "CLOSED" ∧
      packType2String isTrack .SIZE_INFO = "SIZE_INFO") ∧
    (∀ x : CdTextItem,
      packType2String x.isTrackPack .UPCEAN_ISRC =
        if x.trackNr_ > 0 then "ISRC" else "UPC_EAN") := by
  refine ⟨?_, rfl, rfl, ?_, ?_⟩
  · intro isTrack h
    simp [packType2String, h]
  · intro isTrack
    exact ⟨rfl, rfl, rfl, rfl, rfl, rfl, rfl, rfl, rfl, rfl, rfl, rfl, rfl, rfl, rfl⟩
  · intro x
    by_cases h : x.trackNr_ > 0 <;> simp [packType2String, CdTextItem.isTrackPack, h]

/-! ## Rendering -/

theorem join_cons (s : String) (ss : List String) :
    String.join (s :: ss) = s ++ String.join ss := by
  apply String.ext
  simp

theorem readAt_some (m : List Byte) (i : Nat) (h : i < m.length) :
    readAt (some m) i = .ok (m.get ⟨i, h⟩) := by
  simp [readAt, List.getElem?_eq_getElem h]

theorem printTextLoop_eval (m : List Byte) (k i : Nat) (out : String)
    (h : i + k ≤ m.length) :
    printTextLoop (some m) i k out =
      .ok (out ++ String.join (((m.drop i).take k).map printTextByte)) := by
  induction k generalizing i out with
  | zero => simp [printTextLoop, String.join]
  | succ k ih =>
    have hi : i < m.length := by omega
    have hd : m.drop i = m.get ⟨i, hi⟩ :: m.drop (i + 1) := by
      exact List.drop_eq_getElem_cons hi
    simp only [printTextLoop, readAt_some m i hi]
    rw [ih (i + 1) _ (by omega), hd, List.take_succ_cons, List.map_cons, join_cons,
      String.append_assoc]

theorem printBinaryLoop_eval (m : List Byte) (k i : Nat) (out : String)
    (h : i + k ≤ m.length) :
    printBinaryLoop (some m) i k out =
      .ok (out ++ String.join ((((m.drop i).take k).enumFrom i).map
        fun p => printBinaryByte p.1 p.2)) := by
  induction k generalizing i out with
  | zero => simp [printBinaryLoop, String.join]
  | succ k ih =>
    have hi : i < m.length := by omega
    have hd : m.drop i = m.get ⟨i, hi⟩ :: m.drop (i + 1) := by
      exact List.drop_eq_getElem_cons hi
    simp only [printBinaryLoop, readAt_some m i hi]
    rw [ih (i + 1) _ (by omega), hd, List.take_succ_cons, List.enumFrom_cons, List.map_cons,
      join_cons, String.append_assoc]

set_option maxRecDepth 100000 in
theorem printTextByte_eq_escapedByte : ∀ c : Byte, printTextByte c = escapedByte c := by
  decide

set_option maxRecDepth 100000 in
theorem fmt2d_eq_entry : ∀ v : Byte, fmt2d v.val = entry v := by
  decide

theorem printBinaryByte_zero (c : Byte) : printBinaryByte 0 c = entry c := by
  simp [printBinaryByte, fmt2d_eq_entry c]

theorem printBinaryByte_pos (i : Nat) (c : Byte) (hi : 1 ≤ i) :
    printBinaryByte i c = separator i ++ entry c := by
  have h0 : ¬ (i = 0) := by omega
  simp only [printBinaryByte, if_neg h0, separator, fmt2d_eq_entry c]
  by_cases h12 : i % 12 = 0
  · rw [if_pos h12, if_pos h12]
    rfl
  · rw [if_neg h12, if_neg h12]

theorem printBinaryLoop_byteList (m : List Byte) (out : String) :
    printBinaryLoop (some m) 0 m.length out = .ok (out ++ byteList m) := by
  rw [printBinaryLoop_eval m m.length 0 out (by omega)]
  cases m with
  | nil => simp [byteList, String.join]
  | cons b bs =>
    have hmap : (bs.enumFrom 1).map (fun p => printBinaryByte p.1 p.2) =
        (bs.enumFrom 1).map (fun p => separator p.1 ++ entry p.2) := by
      apply List.map_congr_left
      intro p hp
      exact printBinaryByte_pos p.1 p.2 (List.le_fst_of_mem_enumFrom hp)
    simp only [List.drop_zero, List.take_length, List.enumFrom_cons, List.map_cons, join_cons,
      printBinaryByte_zero, byteList, zero_add, hmap]

/-- C2: for a text (SBCC) item whose buffer holds the bytes `bs` followed by a last
byte `t` and whose payload length is `length bs + 1`, `print` appends to the stream
exactly the keyword `packType2String (trackNr_ > 0) packType_`, a space, a double
quote, the escaped form of each byte of `bs` in order, and a double quote, where the
escaped form is `escapedByte` (backslash and double quote for the double quote, the
byte itself for any other printable byte, backslash and three octal digits
otherwise). The last byte `t` is not emitted, and not read: the output is the same
when the buffer ends before it. -/
theorem print_text (x : CdTextItem) (out : String) (bs : List Byte) (t : Byte)
    (hty : x.dataType_ = .SBCC) (hd : x.data_ = some (bs ++ [t]))
    (hl : x.dataLen_ = (bs.length : Int) + 1) :
    x.print out =
        .ok (out ++ packType2String (if x.trackNr_ > 0 then 1 else 0) x.packType_ ++ " \"" ++
          String.join (bs.map escapedByte) ++ "\"") ∧
      CdTextItem.print { x with data_ := some bs } out = x.print out := by
  have hk : (x.dataLen_ - 1).toNat = bs.length := by omega
  have hfun : printTextByte = escapedByte := funext printTextByte_eq_escapedByte
  have h1 : ∀ o : String, printTextLoop (some (bs ++ [t])) 0 bs.length o =
      .ok (o ++ String.join (bs.map escapedByte)) := by
    intro o
    rw [printTextLoop_eval _ _ _ _ (by simp), List.drop_zero, List.take_left, hfun]
  have h2 : ∀ o : String, printTextLoop (some bs) 0 bs.length o =
      .ok (o ++ String.join (bs.map escapedByte)) := by
    intro o
    rw [printTextLoop_eval _ _ _ _ (by simp), List.drop_zero, List.take_length, hfun]
  have hp : x.print out =
      .ok (out ++ packType2String (if x.trackNr_ > 0 then 1 else 0) x.packType_ ++ " \"" ++
          String.join (bs.map escapedByte) ++ "\"") := by
    simp only [CdTextItem.print, CdTextItem.isTrackPack, hty, if_pos, hd, hk, h1]
  refine ⟨hp, ?_⟩
  rw [hp]
  simp only [CdTextItem.print, CdTextItem.isTrackPack, hty, if_pos, hk, h2]

/-- C2, at the scenarios of the specification: the title "My Disc" of block 0 renders
as `TITLE "My Disc"`, and the title made of `a`, a double quote, `b` and the byte 7
renders as `TITLE "a\"b\007"`. -/
theorem print_text_witness :
    sampleTitle.print "" = .ok "TITLE \"My Disc\"" ∧
    sampleQuoted.print "" = .ok "TITLE \"a\\\"b\\007\"" :=
  ⟨(print_text sampleTitle "" [77, 121, 32, 68, 105, 115, 99] 0 rfl rfl rfl).1.trans
      (by decide),
    (print_text sampleQuoted "" [97, 34, 98, 7] 0 rfl rfl rfl).1.trans (by decide)⟩

/-- C3: for a binary item that satisfies the payload invariant, `print` appends to the
stream exactly the keyword, a space, an opening brace, the byte list of the payload and
a closing brace, where the byte list (`byteList`) is empty for an empty payload and
otherwise the entry of byte 0 followed, for each index `i` from 1 on, by the separator
of `i` and the entry of byte `i`; an entry is the decimal representation right-justified
to width 2, a separator a comma, a line break and 15 spaces when `i` is a multiple of 12
and a comma and a space otherwise. With payload length 0 the item renders as the
keyword, a space and the two braces. -/
theorem print_binary (x : CdTextItem) (out : String) (hty : x.dataType_ = .BINARY)
    (hx : x.PayloadOk) :
    x.print out =
        .ok (out ++ packType2String (if x.trackNr_ > 0 then 1 else 0) x.packType_ ++ " \x7b" ++
          byteList x.payload ++ "\x7d") ∧
      (x.dataLen_ = 0 → x.print out =
        .ok (out ++ packType2String (if x.trackNr_ > 0 then 1 else 0) x.packType_ ++
          " \x7b\x7d")) := by
  have hne : ¬ (x.dataType_ = .SBCC) := by rw [hty]; decide
  have hmain : x.print out =
        .ok (out ++ packType2String (if x.trackNr_ > 0 then 1 else 0) x.packType_ ++ " \x7b" ++
          byteList x.payload ++ "\x7d") := by
    obtain ⟨dt, pt, bn, tn, d, l, n⟩ := x
    simp only [CdTextItem.PayloadOk] at hx
    have hdt : dt = .BINARY := hty
    cases d with
    | none =>
      have hl : l = 0 := hx.2
      subst hl
      simp [CdTextItem.print, CdTextItem.isTrackPack, hdt, CdTextItem.payload, printBinaryLoop,
        byteList]
    | some m =>
      obtain ⟨-, -, hlen⟩ := hx
      have hn : l.toNat = m.length := by omega
      simp only [CdTextItem.print, CdTextItem.isTrackPack, if_neg hne, CdTextItem.payload, hn,
        printBinaryLoop_byteList, Option.getD_some]
  refine ⟨hmain, ?_⟩
  intro h0
  rw [hmain]
  have hp : x.payload = [] := by
    obtain ⟨dt, pt, bn, tn, d, l, n⟩ := x
    simp only [CdTextItem.PayloadOk] at hx
    cases d with
    | none => rfl
    | some m =>
      have h0' : l = 0 := h0
      omega
  rw [hp]
  simp only [byteList, String.append_assoc, String.append_empty]
  rfl

/-- C3, at two binary items: thirteen bytes of value 9, with the line break before the
entry of index 12, and an empty payload. -/
theorem print_binary_witness :
    sampleNines.PayloadOk ∧ sampleEmpty.PayloadOk ∧
    sampleNines.print "" =
      .ok "TOC_INFO1 \x7b 9,  9,  9,  9,  9,  9,  9,  9,  9,  9,  9,  9,\n                9\x7d" ∧
    sampleEmpty.print "" = .ok "SIZE_INFO \x7b\x7d" :=
  ⟨by decide, by decide,
    (print_binary sampleNines "" rfl (by decide)).1.trans (by decide),
    (print_binary sampleEmpty "" rfl (by decide)).2 rfl⟩

/-! ## Binary pack types -/

/-- C11: for every pack type `p`, `isBinaryPack p` is true (returns 1, and not 0)
if and only if `p` is one of TOC_INFO1, TOC_INFO2, SIZE_INFO, GENRE; for every other
pack type it returns 0. -/
theorem isBinaryPack_iff (p : PackType) :
    (isBinaryPack p ≠ 0 ↔
      (p = .TOC_INFO1 ∨ p = .TOC_INFO2 ∨ p = .SIZE_INFO ∨ p = .GENRE)) ∧
    (isBinaryPack p = 1 ∨ isBinaryPack p = 0) := by
  cases p <;> simp [isBinaryPack]

/-! ## The invariant -/

theorem strlenAux_spec (m : List Byte) (n : Nat) (h : strlenAux m = some n) :
    n < m.length ∧ m.get? n = some 0 := by
  induction m generalizing n with
  | nil => simp [strlenAux] at h
  | cons c cs ih =>
    by_cases hc : c = 0
    · simp [strlenAux, hc] at h
      subst h
      simp [hc]
    · simp only [strlenAux, if_neg hc] at h
      cases hcs : strlenAux cs with
      | none => simp [hcs] at h
      | some k =>
        simp [hcs] at h
        subst h
        obtain ⟨h1, h2⟩ := ih k hcs
        exact ⟨by simpa using h1, by simpa using h2⟩

theorem memcpy_length (p : Ptr) (n : Nat) (buf : List Byte) (h : memcpy p n = .ok buf) :
    buf.length = n := by
  cases p with
  | none => simp [memcpy] at h
  | some m =>
    by_cases hn : n ≤ m.length
    · simp only [memcpy, if_pos hn] at h
      have hb : buf = m.take n := (Except.ok.inj h).symm
      rw [hb, List.length_take]
      omega
    · simp [memcpy, hn] at h

theorem ofText_inv (packType : PackType) (blockNr : Int) (data : Ptr) (x : CdTextItem)
    (h : CdTextItem.ofText packType blockNr data = .ok x) : x.Inv := by
  unfold CdTextItem.ofText at h
  by_cases hb : ¬ (blockNr ≥ 0 ∧ blockNr ≤ 7)
  · rw [if_pos hb] at h
    exact Except.noConfusion h
  · rw [if_neg hb] at h
    have hb2 : 0 ≤ blockNr ∧ blockNr ≤ 7 := by omega
    cases data with
    | none => exact Except.noConfusion h
    | some m =>
      cases hs : strlenAux m with
      | none =>
        simp only [strlen, hs] at h
        exact Except.noConfusion h
      | some n =>
        obtain ⟨hlt, hz⟩ := strlenAux_spec m n hs
        have hle : n + 1 ≤ m.length := by omega
        simp only [strlen, hs, strcpy, memcpy, if_pos hle] at h
        have hx := (Except.ok.inj h).symm
        subst hx
        have hlen : (List.take (n + 1) m).length = n + 1 := by
          rw [List.length_take]; omega
        have hget : (List.take (n + 1) m).get? n = some 0 := by
          rw [List.get?_eq_getElem?, List.getElem?_take_of_lt (by omega),
            ← List.get?_eq_getElem?]
          exact hz
        have hk : ((n : Int) + 1 - 1).toNat = n := by omega
        refine ⟨hb2, ⟨?_, ?_⟩, ?_⟩
        · show (0 : Int) ≤ (n : Int) + 1
          omega
        · show 0 < (n : Int) + 1 ∧ ((List.take (n + 1) m).length : Int) = (n : Int) + 1
          rw [hlen]
          constructor
          · omega
          · push_cast; rfl
        · intro _
          show 1 ≤ (n : Int) + 1 ∧
            readAt (some (List.take (n + 1) m)) ((n : Int) + 1 - 1).toNat = .ok 0
          rw [hk]
          constructor
          · omega
          · simp only [readAt, hget]

theorem ofBinary_inv (packType : PackType) (blockNr : Int) (data : Ptr) (len : Int)
    (x : CdTextItem) (h0 : 0 ≤ len)
    (h : CdTextItem.ofBinary packType blockNr data len = .ok x) : x.Inv := by
  unfold CdTextItem.ofBinary at h
  by_cases hb : ¬ (blockNr ≥ 0 ∧ blockNr ≤ 7)
  · rw [if_pos hb] at h
    exact Except.noConfusion h
  · rw [if_neg hb] at h
    have hb2 : 0 ≤ blockNr ∧ blockNr ≤ 7 := by omega
    by_cases hpos : len > 0
    · rw [if_pos hpos] at h
      cases hm : memcpy data len.toNat with
      | error e =>
        rw [hm] at h
        exact Except.noConfusion h
      | ok buf =>
        rw [hm] at h
        have hx := (Except.ok.inj h).symm
        subst hx
        have hlen := memcpy_length data len.toNat buf hm
        refine ⟨hb2, ⟨h0, ?_⟩, ?_⟩
        · show 0 < len ∧ (buf.length : Int) = len
          constructor
          · omega
          · omega
        · intro hty
          exact absurd (show DataType.BINARY = DataType.SBCC from hty) (by decide)
    · rw [if_neg hpos] at h
      have hx := (Except.ok.inj h).symm
      subst hx
      refine ⟨hb2, ⟨h0, ?_⟩, ?_⟩
      · show len = 0
        omega
      · intro hty
        exact absurd (show DataType.BINARY = DataType.SBCC from hty) (by decide)

theorem ofGenre_inv (blockNr : Int) (c1 c2 : Byte) (description : Ptr) (x : CdTextItem)
    (h : CdTextItem.ofGenre blockNr c1 c2 description = .ok x) : x.Inv := by
  unfold CdTextItem.ofGenre at h
  by_cases hb : ¬ (blockNr ≥ 0 ∧ blockNr ≤ 7)
  · rw [if_pos hb] at h
    exact Except.noConfusion h
  · rw [if_neg hb] at h
    have hb2 : 0 ≤ blockNr ∧ blockNr ≤ 7 := by omega
    cases description with
    | none =>
      have hx := (Except.ok.inj h).symm
      subst hx
      refine ⟨hb2, ⟨?_, ?_⟩, ?_⟩
      · show (0 : Int) ≤ 2
        decide
      · show 0 < (2 : Int) ∧ (([c1, c2].length : Nat) : Int) = 2
        exact ⟨by decide, rfl⟩
      intro hty
      exact absurd (show DataType.BINARY = DataType.SBCC from hty) (by decide)
    | some m =>
      cases hs : strlen (some m) with
      | error e =>
        simp only [hs] at h
        exact Except.noConfusion h
      | ok n =>
        simp only [hs] at h
        cases hm : memcpy (some m) (2 + ((n : Int) + 1) - 2).toNat with
        | error e =>
          rw [hm] at h
          exact Except.noConfusion h
        | ok copied =>
          rw [hm] at h
          have hx := (Except.ok.inj h).symm
          subst hx
          have hlen := memcpy_length _ _ _ hm
          have hk : (2 + ((n : Int) + 1) - 2).toNat = n + 1 := by omega
          rw [hk] at hlen
          refine ⟨hb2, ⟨?_, ?_⟩, ?_⟩
          · show (0 : Int) ≤ 2 + ((n : Int) + 1)
            omega
          · show 0 < 2 + ((n : Int) + 1) ∧
              ((([c1, c2] ++ copied).length : Nat) : Int) = 2 + ((n : Int) + 1)
            constructor
            · omega
            · simp only [List.length_append, List.length_cons, List.length_nil, hlen]
              push_cast
              omega
          · intro hty
            exact absurd (show DataType.BINARY = DataType.SBCC from hty) (by decide)

theorem copy_inv (x : CdTextItem) (hx : x.Inv) :
    ∃ c : CdTextItem, x.copy = .ok c ∧ c.Inv :=
  ⟨{ x with next_ := none }, copy_eval x hx.2.1, hx⟩

theorem readAt_last (m : List Byte) (l : Int) (hl : (m.length : Int) = l)
    (h : readAt (some m) (l - 1).toNat = .ok 0) (h1 : 1 ≤ l) : m.getLast? = some 0 := by
  have hk : (l - 1).toNat = m.length - 1 := by omega
  rw [hk] at h
  rw [List.getLast?_eq_getElem?, ← List.get?_eq_getElem?]
  simp only [readAt] at h
  cases hg : m.get? (m.length - 1) with
  | none =>
    rw [hg] at h
    exact Except.noConfusion h
  | some c =>
    rw [hg] at h
    rw [Except.ok.inj h]

/-- C13: every item returned by the text constructor, by the binary constructor with
`len >= 0` and by the genre constructor satisfies the data-model invariant `Inv` (a
constructor that returns has checked that the block number lies in 0..7), and the copy
constructor, on an item that satisfies it, returns an item that satisfies it. The
invariant gives what the specification lists: the block number lies in 0..7, the
payload length is not negative, the buffer is present if and only if the payload length
is positive, and a text item has at least one payload byte and its last payload byte
is 0. -/
theorem constructors_invariant :
    (∀ (packType : PackType) (blockNr : Int) (data : Ptr) (x : CdTextItem),
      CdTextItem.ofText packType blockNr data = .ok x → x.Inv) ∧
    (∀ (packType : PackType) (blockNr : Int) (data : Ptr) (len : Int) (x : CdTextItem),
      0 ≤ len → CdTextItem.ofBinary packType blockNr data len = .ok x → x.Inv) ∧
    (∀ (blockNr : Int) (c1 c2 : Byte) (description : Ptr) (x : CdTextItem),
      CdTextItem.ofGenre blockNr c1 c2 description = .ok x → x.Inv) ∧
    (∀ x : CdTextItem, x.Inv → ∃ c : CdTextItem, x.copy = .ok c ∧ c.Inv) ∧
    (∀ x : CdTextItem, x.Inv →
      0 ≤ x.blockNr_ ∧ x.blockNr_ ≤ 7 ∧ 0 ≤ x.dataLen_ ∧
      (x.data_.isSome = true ↔ 0 < x.dataLen_) ∧
      (x.dataType_ = .SBCC → 1 ≤ x.dataLen_ ∧ x.payload.getLast? = some 0)) := by
  refine ⟨ofText_inv, ?_, ofGenre_inv, copy_inv, ?_⟩
  · intro packType blockNr data len x h0 h
    exact ofBinary_inv packType blockNr data len x h0 h
  · intro x hx
    obtain ⟨dt, pt, bn, tn, d, l, n⟩ := x
    obtain ⟨hb, hp, ht⟩ := hx
    simp only [CdTextItem.PayloadOk] at hp
    refine ⟨hb.1, hb.2, hp.1, ?_, ?_⟩
    · cases d with
      | none =>
        have hl : l = 0 := hp.2
        simp [hl]
      | some m =>
        have hl : 0 < l := hp.2.1
        simp [hl]
    · intro hty
      obtain ⟨h1, hr⟩ := ht hty
      refine ⟨h1, ?_⟩
      cases d with
      | none =>
        have hl : l = 0 := hp.2
        have h1' : 1 ≤ l := h1
        omega
      | some m =>
        exact readAt_last m l hp.2.2 hr h1

set_option maxRecDepth 8192 in
/-- C13, at the title "My Disc": the item the text constructor returns satisfies the
invariant, so does the copy of the title linked on track 3, and the last payload byte
of the title is 0. -/
theorem constructors_invariant_witness :
    sampleTitle.Inv ∧ (∃ c : CdTextItem, sampleTitleTrack3.copy = .ok c ∧ c.Inv) ∧
    sampleTitle.payload.getLast? = some 0 :=
  ⟨constructors_invariant.1 .TITLE 0 (some [77, 121, 32, 68, 105, 115, 99, 0]) sampleTitle
      (by decide),
    constructors_invariant.2.2.2.1 sampleTitleTrack3 (by decide),
    ((constructors_invariant.2.2.2.2 sampleTitle (by decide)).2.2.2.2 rfl).2⟩

/-! ## Line breaks of a binary rendering -/

theorem join_append (a b : List String) :
    String.join (a ++ b) = String.join a ++ String.join b := by
  apply String.ext
  simp

theorem lineBreaks_append (s t : String) :
    lineBreaks (s ++ t) = lineBreaks s + lineBreaks t := by
  simp [lineBreaks, String.data_append, List.count_append]

set_option maxRecDepth 100000 in
theorem lineBreaks_entry : ∀ v : Byte, lineBreaks (entry v) = 0 := by
  decide

theorem lineBreaks_keyword (isTrack : Int) (p : PackType) :
    lineBreaks (packType2String isTrack p) = 0 := by
  cases p <;> try rfl
  by_cases h : isTrack ≠ 0
  · simp only [packType2String, if_pos h]
    rfl
  · simp only [packType2String, if_neg h]
    rfl

theorem lineBreaks_printBinaryByte (i : Nat) (c : Byte) :
    lineBreaks (printBinaryByte i c) = if i ≠ 0 ∧ i % 12 = 0 then 1 else 0 := by
  by_cases h0 : i = 0
  · subst h0
    rw [printBinaryByte_zero, lineBreaks_entry]
    simp
  · rw [printBinaryByte_pos i c (by omega), lineBreaks_append, lineBreaks_entry]
    by_cases h12 : i % 12 = 0
    · simp only [separator, if_pos h12, if_pos (And.intro h0 h12)]
      rfl
    · have hn : ¬ (i ≠ 0 ∧ i % 12 = 0) := fun h => h12 h.2
      simp only [separator, if_neg h12, if_neg hn]
      rfl

theorem byteList_eq_join (m : List Byte) :
    byteList m = String.join ((m.enumFrom 0).map fun p => printBinaryByte p.1 p.2) := by
  cases m with
  | nil => simp [byteList, String.join]
  | cons b bs =>
    have hmap : (bs.enumFrom 1).map (fun p => printBinaryByte p.1 p.2) =
        (bs.enumFrom 1).map (fun p => separator p.1 ++ entry p.2) := by
      apply List.map_congr_left
      intro p hp
      exact printBinaryByte_pos p.1 p.2 (List.le_fst_of_mem_enumFrom hp)
    simp only [List.enumFrom_cons, List.map_cons, join_cons, printBinaryByte_zero, byteList,
      zero_add, hmap]

theorem byteList_snoc (l : List Byte) (c : Byte) :
    byteList (l ++ [c]) = byteList l ++ printBinaryByte l.length c := by
  rw [byteList_eq_join, byteList_eq_join, List.enumFrom_append, List.map_append, join_append]
  simp [String.join]

theorem lineBreaks_byteList (m : List Byte) :
    lineBreaks (byteList m) = (m.length - 1) / 12 := by
  induction m using List.reverseRecOn with
  | nil => rfl
  | append_singleton l c ih =>
    rw [byteList_snoc, lineBreaks_append, ih, lineBreaks_printBinaryByte, List.length_append]
    simp only [List.length_cons, List.length_nil]
    by_cases h : l.length ≠ 0 ∧ l.length % 12 = 0
    · rw [if_pos h]
      omega
    · rw [if_neg h]
      omega

theorem byteList_split (a b : List Byte) (c : Byte) :
    byteList (a ++ c :: b) =
      byteList a ++ printBinaryByte a.length c ++
        String.join ((b.enumFrom (a.length + 1)).map fun p => printBinaryByte p.1 p.2) := by
  rw [byteList_eq_join, byteList_eq_join, List.enumFrom_append, List.map_append, join_append,
    List.enumFrom_cons, List.map_cons, join_cons, zero_add, String.append_assoc]

theorem print_binary_eval (x : CdTextItem) (out : String) (hty : x.dataType_ = .BINARY)
    (hx : x.PayloadOk) :
    x.print out = .ok (out ++ x.binaryHead ++ byteList x.payload ++ "\x7d") := by
  have hne : ¬ (x.dataType_ = .SBCC) := by rw [hty]; decide
  obtain ⟨dt, pt, bn, tn, d, l, n⟩ := x
  simp only [CdTextItem.PayloadOk] at hx
  have hdt : dt = .BINARY := hty
  cases d with
  | none =>
    have hl : l = 0 := hx.2
    subst hl
    simp [CdTextItem.print, CdTextItem.isTrackPack, hdt, CdTextItem.payload, printBinaryLoop,
      byteList, CdTextItem.binaryHead, String.append_assoc]
  | some m =>
    obtain ⟨-, -, hlen⟩ := hx
    have hn : l.toNat = m.length := by omega
    simp only [CdTextItem.print, CdTextItem.isTrackPack, if_neg hne, CdTextItem.payload, hn,
      printBinaryLoop_byteList, Option.getD_some, CdTextItem.binaryHead, String.append_assoc]

theorem payload_length (x : CdTextItem) (hx : x.PayloadOk) :
    (x.payload.length : Int) = x.dataLen_ := by
  obtain ⟨dt, pt, bn, tn, d, l, n⟩ := x
  simp only [CdTextItem.PayloadOk] at hx
  cases d with
  | none =>
    have hl : l = 0 := hx.2
    simp [CdTextItem.payload, hl]
  | some m => exact hx.2.2

theorem lineBreaks_binaryHead (x : CdTextItem) : lineBreaks x.binaryHead = 0 := by
  rw [CdTextItem.binaryHead, lineBreaks_append, lineBreaks_keyword]
  rfl

/-- C14: for a binary item that satisfies the payload invariant, with `n` payload bytes
(`n` is the payload length), the rendering has exactly `(n - 1) / 12` line breaks when
`n >= 1` and none when `n = 0`; and for every `k >= 1` with `12 * k < n` the rendering
is the rendering of the entries of index below `12 * k`, which holds `k - 1` line
breaks, then a comma, the `k`-th line break and the indentation, then the entry of
index `12 * k`, then the rest. -/
theorem print_binary_lineBreaks (x : CdTextItem) (hty : x.dataType_ = .BINARY)
    (hx : x.PayloadOk) :
    ∃ s : String, x.print "" = .ok s ∧
      (x.payload.length : Int) = x.dataLen_ ∧
      lineBreaks s = (x.payload.length - 1) / 12 ∧
      (x.payload.length = 0 → lineBreaks s = 0) ∧
      ∀ (k : Nat) (h : 12 * k < x.payload.length), 1 ≤ k →
        ∃ post : String,
          s = (x.binaryHead ++ byteList (x.payload.take (12 * k))) ++
                ("," ++ "\n" ++ "".pushn (Char.ofNat 32) 15) ++
                entry (x.payload.get ⟨12 * k, h⟩) ++ post ∧
          lineBreaks (x.binaryHead ++ byteList (x.payload.take (12 * k))) = k - 1 := by
  have hcount : lineBreaks ("" ++ x.binaryHead ++ byteList x.payload ++ "\x7d") =
      (x.payload.length - 1) / 12 := by
    rw [lineBreaks_append, lineBreaks_append, lineBreaks_append, lineBreaks_binaryHead,
      lineBreaks_byteList]
    have h1 : lineBreaks "" = 0 := rfl
    have h2 : lineBreaks "\x7d" = 0 := rfl
    omega
  refine ⟨_, print_binary_eval x "" hty hx, payload_length x hx, hcount, ?_, ?_⟩
  · intro h0
    rw [hcount, h0]
  · intro k h hk
    have hsplit : x.payload = x.payload.take (12 * k) ++
        x.payload.get ⟨12 * k, h⟩ :: x.payload.drop (12 * k + 1) := by
      have h1 := List.take_append_drop (12 * k) x.payload
      have h2 : x.payload.drop (12 * k) =
          x.payload.get ⟨12 * k, h⟩ :: x.payload.drop (12 * k + 1) :=
        List.drop_eq_getElem_cons h
      rw [h2] at h1
      exact h1.symm
    have hlen : (x.payload.take (12 * k)).length = 12 * k := by
      rw [List.length_take]
      omega
    have hsep : separator (12 * k) = "," ++ "\n" ++ "".pushn (Char.ofNat 32) 15 := by
      have h12 : 12 * k % 12 = 0 := by omega
      simp only [separator, if_pos h12]
    refine ⟨String.join (((x.payload.drop (12 * k + 1)).enumFrom (12 * k + 1)).map
        fun p => printBinaryByte p.1 p.2) ++ "\x7d", ?_, ?_⟩
    · have hb : byteList x.payload =
          byteList (x.payload.take (12 * k)) ++
            (separator (12 * k) ++ entry (x.payload.get ⟨12 * k, h⟩)) ++
            String.join (((x.payload.drop (12 * k + 1)).enumFrom (12 * k + 1)).map
              fun p => printBinaryByte p.1 p.2) := by
        conv_lhs => rw [hsplit]
        rw [byteList_split, hlen, printBinaryByte_pos (12 * k) _ (by omega)]
      rw [hb, hsep]
      simp only [String.append_assoc, String.empty_append]
    · rw [lineBreaks_append, lineBreaks_binaryHead, lineBreaks_byteList, hlen]
      omega

set_option maxRecDepth 8192 in
/-- C14, at thirteen bytes of value 9: the rendering has exactly one line break, and it
stands after the first twelve entries and their comma, before the entry of index 12. -/
theorem print_binary_lineBreaks_witness :
    sampleNines.PayloadOk ∧
    ∃ s : String, sampleNines.print "" = .ok s ∧ lineBreaks s = 1 ∧
      ∃ post : String,
        s = (sampleNines.binaryHead ++ byteList (List.replicate 12 9)) ++
              ("," ++ "\n" ++ "".pushn (Char.ofNat 32) 15) ++ entry 9 ++ post :=
  ⟨by decide,
    (print_binary_lineBreaks sampleNines rfl (by decide)).imp
      fun _ h => ⟨h.1, h.2.2.1.trans (by decide),
        (h.2.2.2.2 1 (by decide) (by decide)).imp fun _ hp => hp.1⟩⟩

/-! ## The genre item without description -/

/-- C15: for a block number in 0..7 and genre codes `c1`, `c2`, the genre constructor
without a description returns an item of payload length 2 that renders as the keyword
GENRE, a space, an opening brace, the width-2 entry of `c1`, a comma and a space, the
width-2 entry of `c2` and a closing brace. -/
theorem genre_render (blockNr : Int) (c1 c2 : Byte) (hb : 0 ≤ blockNr ∧ blockNr ≤ 7) :
    ∃ x : CdTextItem, CdTextItem.ofGenre blockNr c1 c2 none = .ok x ∧ x.dataLen_ = 2 ∧
      ∀ out : String,
        x.print out = .ok (out ++ "GENRE" ++ " \x7b" ++ entry c1 ++ ", " ++ entry c2 ++ "\x7d") := by
  have hb2 : ¬ ¬ (blockNr ≥ 0 ∧ blockNr ≤ 7) := not_not.2 hb
  refine ⟨{ dataType_ := .BINARY, packType_ := .GENRE, blockNr_ := blockNr, trackNr_ := 0,
            data_ := some [c1, c2], dataLen_ := 2, next_ := none }, ?_, rfl, ?_⟩
  · simp only [CdTextItem.ofGenre, if_neg hb2]
  · intro out
    have hok : CdTextItem.PayloadOk
        { dataType_ := .BINARY, packType_ := .GENRE, blockNr_ := blockNr, trackNr_ := 0,
          data_ := some [c1, c2], dataLen_ := 2, next_ := none } := by
      show (0 : Int) ≤ 2 ∧ (0 < (2 : Int) ∧ (([c1, c2].length : Nat) : Int) = 2)
      exact ⟨by decide, by decide, rfl⟩
    rw [print_binary_eval _ out rfl hok]
    have hsep : separator 1 = ", " := rfl
    have hnil : String.join ([] : List String) = "" := rfl
    have hhead : CdTextItem.binaryHead
        { dataType_ := .BINARY, packType_ := .GENRE, blockNr_ := blockNr, trackNr_ := 0,
          data_ := some [c1, c2], dataLen_ := 2, next_ := none } = "GENRE" ++ " \x7b" := rfl
    rw [hhead]
    simp only [CdTextItem.payload, Option.getD_some, byteList, List.enumFrom_cons,
      List.enumFrom_nil, List.map_cons, List.map_nil, join_cons, hsep, hnil,
      String.append_empty, String.append_assoc]

/-- C15, at block 0 and codes (1, 5): the item has payload length 2 and renders as
`GENRE { 1,  5}`. -/
theorem genre_render_witness :
    ∃ x : CdTextItem, CdTextItem.ofGenre 0 1 5 none = .ok x ∧ x.dataLen_ = 2 ∧
      x.print "" = .ok "GENRE \x7b 1,  5\x7d" :=
  (genre_render 0 1 5 (by decide)).imp
    fun _ h => ⟨h.1, h.2.1, (h.2.2 "").trans (by decide)⟩

/-! ## The octal escape -/

/-- C16: for every byte `v` that is not printable (the double quote is printable), what
the text loop of `print` writes for `v` is exactly four characters: a backslash and
three octal digits `d2 d1 d0`, each in 0..7, with `64 * d2 + 8 * d1 + d0 = v`. -/
theorem escape_octal (v : Byte) (h : isprint v.val = false) :
    ∃ d2 d1 d0 : Nat, d2 < 8 ∧ d1 < 8 ∧ d0 < 8 ∧ 64 * d2 + 8 * d1 + d0 = v.val ∧
      printTextByte v =
        String.mk [Char.ofNat 92, octalDigit d2, octalDigit d1, octalDigit d0] ∧
      (printTextByte v).length = 4 := by
  have hv : v.val < 256 := v.isLt
  have h34 : ¬ (v.val = 34) := by
    intro h34
    rw [h34] at h
    exact absurd h (by decide)
  have hp : ¬ (isprint v.val = true) := by rw [h]; decide
  have he : printTextByte v =
      String.mk [Char.ofNat 92, octalDigit (v.val / 64), octalDigit (v.val / 8 % 8),
        octalDigit (v.val % 8)] := by
    rw [printTextByte_eq_escapedByte]
    simp only [escapedByte, if_neg h34, if_neg hp]
  refine ⟨v.val / 64, v.val / 8 % 8, v.val % 8, by omega, by omega, by omega, by omega, he, ?_⟩
  rw [he]
  rfl

/-- C16, at the bytes 7 and 255: they render as `\007` and `\377`. -/
theorem escape_octal_witness :
    (∃ d2 d1 d0 : Nat, d2 < 8 ∧ d1 < 8 ∧ d0 < 8 ∧ 64 * d2 + 8 * d1 + d0 = (7 : Byte).val ∧
      printTextByte 7 =
        String.mk [Char.ofNat 92, octalDigit d2, octalDigit d1, octalDigit d0] ∧
      (printTextByte 7).length = 4) ∧
    (∃ d2 d1 d0 : Nat, d2 < 8 ∧ d1 < 8 ∧ d0 < 8 ∧ 64 * d2 + 8 * d1 + d0 = (255 : Byte).val ∧
      printTextByte 255 =
        String.mk [Char.ofNat 92, octalDigit d2, octalDigit d1, octalDigit d0] ∧
      (printTextByte 255).length = 4) ∧
    printTextByte 7 = "\\007" ∧ printTextByte 255 = "\\377" :=
  ⟨escape_octal 7 (by decide), escape_octal 255 (by decide), by decide, by decide⟩

/-! ## The characters of a text rendering -/

theorem print_text_eval (x : CdTextItem) (out : String) (bs : List Byte) (t : Byte)
    (hty : x.dataType_ = .SBCC) (hd : x.data_ = some (bs ++ [t]))
    (hl : x.dataLen_ = (bs.length : Int) + 1) :
    x.print out =
      .ok (out ++ packType2String (if x.trackNr_ > 0 then 1 else 0) x.packType_ ++ " \"" ++
        String.join (bs.map escapedByte) ++ "\"") := by
  have hk : (x.dataLen_ - 1).toNat = bs.length := by omega
  have hfun : printTextByte = escapedByte := funext printTextByte_eq_escapedByte
  have h1 : ∀ o : String, printTextLoop (some (bs ++ [t])) 0 bs.length o =
      .ok (o ++ String.join (bs.map escapedByte)) := by
    intro o
    rw [printTextLoop_eval _ _ _ _ (by simp), List.drop_zero, List.take_left, hfun]
  simp only [CdTextItem.print, CdTextItem.isTrackPack, hty, if_pos, hd, hk, h1]

theorem printable_append (s t : String) (hs : ∀ ch ∈ s.data, printableAscii ch)
    (ht : ∀ ch ∈ t.data, printableAscii ch) : ∀ ch ∈ (s ++ t).data, printableAscii ch := by
  intro ch hch
  rw [String.data_append, List.mem_append] at hch
  rcases hch with h | h
  · exact hs ch h
  · exact ht ch h

theorem printable_join (l : List String)
    (hl : ∀ s ∈ l, ∀ ch ∈ s.data, printableAscii ch) :
    ∀ ch ∈ (String.join l).data, printableAscii ch := by
  induction l with
  | nil =>
    intro ch hch
    exact absurd hch (List.not_mem_nil ch)
  | cons s ss ih =>
    rw [join_cons]
    exact printable_append s (String.join ss) (hl s (List.mem_cons_self _ _))
      (ih fun u hu => hl u (List.mem_cons_of_mem _ hu))

set_option maxRecDepth 100000 in
theorem printable_escapedByte :
    ∀ c : Byte, ∀ ch ∈ (escapedByte c).data, printableAscii ch := by
  decide

theorem printable_keyword (isTrack : Int) (p : PackType) :
    ∀ ch ∈ (packType2String isTrack p).data, printableAscii ch := by
  by_cases h : isTrack ≠ 0
  · cases p <;> simp only [packType2String, if_pos h] <;> decide
  · cases p <;> simp only [packType2String, if_neg h] <;> decide

/-- C18: for every text item, whatever the bytes `bs` of its payload before the last
one, `print` returns, and every character it writes is a printable ASCII character
(code 0x20..0x7e): no control byte, line break or byte above 0x7e is written raw. -/
theorem print_text_printable (x : CdTextItem) (bs : List Byte) (t : Byte)
    (hty : x.dataType_ = .SBCC) (hd : x.data_ = some (bs ++ [t]))
    (hl : x.dataLen_ = (bs.length : Int) + 1) :
    ∃ s : String, x.print "" = .ok s ∧ ∀ ch ∈ s.data, printableAscii ch := by
  refine ⟨_, print_text_eval x "" bs t hty hd hl, ?_⟩
  apply printable_append
  · apply printable_append
    · apply printable_append
      · apply printable_append
        · intro ch hch
          exact absurd hch (List.not_mem_nil ch)
        · exact printable_keyword _ _
      · decide
    · apply printable_join
      intro s hs
      obtain ⟨c, -, hc⟩ := List.mem_map.1 hs
      rw [← hc]
      exact printable_escapedByte c
  · decide

/-- C18, at the title made of `a`, a double quote, `b` and the control byte 7. -/
theorem print_text_printable_witness :
    ∃ s : String, sampleQuoted.print "" = .ok s ∧ ∀ ch ∈ s.data, printableAscii ch :=
  print_text_printable sampleQuoted [97, 34, 98, 7] 0 rfl rfl rfl

/-! ## A backslash is written as it is -/

set_option maxRecDepth 8192 in
/-- C17 fails on the code: the text constructor builds, from the string made of a
backslash and the digits 0, 0, 7 and from the string made of the byte 7, two titles of
block 0 and track 0 whose payloads differ and which `print` renders alike, as
`TITLE "\007"`. -/
theorem print_text_collision :
    CdTextItem.ofText .TITLE 0 (some [92, 48, 48, 55, 0]) = .ok sampleBackslash ∧
    CdTextItem.ofText .TITLE 0 (some [7, 0]) = .ok sampleBell ∧
    sampleBackslash.packType_ = sampleBell.packType_ ∧
    sampleBackslash.trackNr_ = sampleBell.trackNr_ ∧
    sampleBackslash.print "" = .ok "TITLE \"\\007\"" ∧
    sampleBell.print "" = .ok "TITLE \"\\007\"" ∧
    sampleBackslash.data_ ≠ sampleBell.data_ := by
  decide

/-! ## The keyword determines the pack type -/

theorem packType2String_flag (t : Int) (p : PackType) :
    packType2String t p = packType2String (if t ≠ 0 then 1 else 0) p := by
  by_cases h : t ≠ 0
  · cases p <;> simp [packType2String, h]
  · cases p <;> simp [packType2String, h]

theorem keyword_injective_flags (b1 b2 : Bool) (p1 p2 : PackType)
    (h : packType2String (if b1 = true then 1 else 0) p1 =
      packType2String (if b2 = true then 1 else 0) p2) : p1 = p2 := by
  revert h
  cases b1 <;> cases b2 <;> cases p1 <;> cases p2 <;> decide

theorem keyword_known_flags (b : Bool) (p : PackType) :
    packType2String (if b = true then 1 else 0) p ≠ "UNKNOWN" := by
  cases b <;> cases p <;> decide

/-- C19: for all pack types `p1`, `p2` and flags `t1`, `t2`, if `packType2String`
gives the same keyword for `(t1, p1)` and `(t2, p2)` then `p1 = p2`; and the keyword of
no pack type is the fallback string UNKNOWN. -/
theorem keyword_determines_packType (p1 p2 : PackType) (t1 t2 : Int) :
    (packType2String t1 p1 = packType2String t2 p2 → p1 = p2) ∧
    packType2String t1 p1 ≠ "UNKNOWN" := by
  have e1 : (if t1 ≠ 0 then (1 : Int) else 0) =
      (if decide (t1 ≠ 0) = true then (1 : Int) else 0) := by
    by_cases h : t1 ≠ 0 <;> simp [h]
  have e2 : (if t2 ≠ 0 then (1 : Int) else 0) =
      (if decide (t2 ≠ 0) = true then (1 : Int) else 0) := by
    by_cases h : t2 ≠ 0 <;> simp [h]
  constructor
  · intro h
    rw [packType2String_flag t1 p1, packType2String_flag t2 p2, e1, e2] at h
    exact keyword_injective_flags _ _ p1 p2 h
  · rw [packType2String_flag t1 p1, e1]
    exact keyword_known_flags _ p1

/-- C19, at the keywords of UPCEAN_ISRC on a track and on the disc, which differ and
both name UPCEAN_ISRC, and at TITLE. -/
theorem keyword_determines_packType_witness :
    packType2String 1 .UPCEAN_ISRC ≠ "UNKNOWN" ∧ packType2String 0 .UPCEAN_ISRC ≠ "UNKNOWN" ∧
    (packType2String 1 .TITLE = packType2String 0 .TITLE → PackType.TITLE = PackType.TITLE) :=
  ⟨(keyword_determines_packType .UPCEAN_ISRC .UPCEAN_ISRC 1 0).2,
    (keyword_determines_packType .UPCEAN_ISRC .UPCEAN_ISRC 0 1).2,
    (keyword_determines_packType .TITLE .TITLE 1 0).1⟩

/-! ## Equality is an equivalence -/

theorem eq_values (a b : CdTextItem) (r : Int) (h : a.eq b = .ok r) : r = 0 ∨ r = 1 := by
  unfold CdTextItem.eq at h
  split at h
  · exact Or.inl (Except.ok.inj h).symm
  · split at h
    · exact Except.noConfusion h
    · have hr := (Except.ok.inj h).symm
      rw [hr]
      split
      · exact Or.inr rfl
      · exact Or.inl rfl

theorem ne_eval (a b : CdTextItem) :
    (a.ne b = .ok 1 ↔ a.eq b = .ok 0) ∧ (a.ne b = .ok 0 ↔ a.eq b = .ok 1) := by
  unfold CdTextItem.ne
  cases h : a.eq b with
  | error e =>
    constructor
    · constructor <;> intro h2 <;> exact Except.noConfusion h2
    · constructor <;> intro h2 <;> exact Except.noConfusion h2
  | ok r =>
    rcases eq_values a b r h with h0 | h1
    · subst h0
      simp
    · subst h1
      simp

/-- C20: on items that satisfy the payload part of the data-model invariant,
`operator==` is reflexive (`a == a` returns 1), symmetric (if `a == b` returns 1 so does
`b == a`) and transitive (if `a == b` and `b == c` return 1 so does `a == c`), and it
returns 0 or 1; and for all items `x`, `y`, `x != y` returns 1 exactly when `x == y`
returns 0, and 0 exactly when `x == y` returns 1. -/
theorem operator_eq_equivalence (a b c : CdTextItem) (ha : a.PayloadOk) (hb : b.PayloadOk)
    (hc : c.PayloadOk) :
    a.eq a = .ok 1 ∧
    (a.eq b = .ok 1 → b.eq a = .ok 1) ∧
    (a.eq b = .ok 1 → b.eq c = .ok 1 → a.eq c = .ok 1) ∧
    (a.eq b = .ok 1 ∨ a.eq b = .ok 0) ∧
    (∀ x y : CdTextItem,
      (x.ne y = .ok 1 ↔ x.eq y = .ok 0) ∧ (x.ne y = .ok 0 ↔ x.eq y = .ok 1)) := by
  have key : ∀ u v : CdTextItem, u.PayloadOk → v.PayloadOk →
      (u.eq v = .ok 1 ↔ u.SameContent v) := by
    intro u v hu hv
    rw [eq_eval u v hu hv]
    by_cases hs : u.SameContent v
    · simp [hs]
    · simp [hs]
  refine ⟨?_, ?_, ?_, ?_, ne_eval⟩
  · exact (key a a ha ha).2 ⟨rfl, rfl, rfl, rfl, rfl⟩
  · intro h
    obtain ⟨h1, h2, h3, h4, h5⟩ := (key a b ha hb).1 h
    exact (key b a hb ha).2 ⟨h1.symm, h2.symm, h3.symm, h4.symm, h5.symm⟩
  · intro h h'
    obtain ⟨h1, h2, h3, h4, h5⟩ := (key a b ha hb).1 h
    obtain ⟨g1, g2, g3, g4, g5⟩ := (key b c hb hc).1 h'
    exact (key a c ha hc).2
      ⟨h1.trans g1, h2.trans g2, h3.trans g3, h4.trans g4, h5.trans g5⟩
  · rw [eq_eval a b ha hb]
    by_cases hs : a.SameContent b
    · simp [hs]
    · simp [hs]

/-- C20, at the title "My Disc", the same title on track 3 and the title "My Disk". -/
theorem operator_eq_equivalence_witness :
    sampleTitle.eq sampleTitle = .ok 1 ∧
    (sampleTitle.eq sampleTitleTrack3 = .ok 1 → sampleTitleTrack3.eq sampleTitle = .ok 1) ∧
    (sampleTitle.ne sampleTitleOther = .ok 1 ↔ sampleTitle.eq sampleTitleOther = .ok 0) ∧
    sampleTitle.ne sampleTitleOther = .ok 1 ∧ sampleTitle.ne sampleTitleTrack3 = .ok 0 :=
  ⟨(operator_eq_equivalence sampleTitle sampleTitleTrack3 sampleTitleOther
      (by decide) (by decide) (by decide)).1,
    (operator_eq_equivalence sampleTitle sampleTitleTrack3 sampleTitleOther
      (by decide) (by decide) (by decide)).2.1,
    ((operator_eq_equivalence sampleTitle sampleTitleTrack3 sampleTitleOther
      (by decide) (by decide) (by decide)).2.2.2.2 sampleTitle sampleTitleOther).1,
    by decide, by decide⟩

/-! ## The block-number precondition -/

end CdText
